import Mathlib

/-!
Shallow embedding of the per-pool runner manager of cybozu-go/meows
(`controllers` package: `RunnerManagerImpl`, `managerLoop`): the data model,
the tick phases (metrics update, pod maintenance, offline-runner cleanup) and
the supervisor `Stop` path, together with proofs of the spec claims about them.

Times are modelled as integers (`Int`); Go's `time.Time.After` is strict
comparison, so `a.After(b)` is embedded as `b < a`.  External calls (Kubernetes
Delete/Update, CI-provider RemoveRunner, status GET, chat notify) are embedded
by passing oracles that fix each call's result, so one run of the model is one
deterministic execution of a tick.  A Go nil-pointer dereference of an absent
optional field is embedded as `Option.none` propagating to a `none` result of
the whole evaluation (the Go code would panic there).
-/

namespace Meows

/-- CI-provider runner record (`github.Runner`): id, name, online, busy,
labels (tags; they contain the owning pool identity). -/
structure Runner where
  id : Nat
  name : String
  online : Bool
  busy : Bool
  labels : List String
  deriving DecidableEq, Repr

/-- Runner pod as the manager loop sees it: name, creation timestamp, and the
set of label keys it carries (we only track label keys; the one the loop
mutates is the replica-set template-hash label). -/
structure Pod where
  name : String
  creationTimestamp : Int
  labels : List String
  deriving DecidableEq, Repr

/-- The replica-set template-hash label key
(`appsv1.DefaultDeploymentUniqueLabelKey`). -/
def templateHashLabelKey : String := "pod-template-hash"

/-- `_, ok := po.Labels[appsv1.DefaultDeploymentUniqueLabelKey]`. -/
def hasTemplateHashLabel (po : Pod) : Bool :=
  po.labels.contains templateHashLabelKey

/-- `delete(po.Labels, appsv1.DefaultDeploymentUniqueLabelKey)`. -/
def removeTemplateHashLabel (po : Pod) : Pod :=
  { po with labels := po.labels.filter (fun l => l ≠ templateHashLabelKey) }

/-- Runner-pod states reported by the in-pod supervisor. -/
inductive RunnerPodState where
  | initializing
  | running
  | debugging
  | stale
  deriving DecidableEq, Repr

/-- Runner-pod status retrieved over HTTP (`runner.Status`).  `finishedAt` and
`deletionTime` are pointers in Go (`*time.Time`) and `extend` is a `*bool`,
hence `Option`. -/
structure Status where
  state : RunnerPodState
  finishedAt : Option Int
  deletionTime : Option Int
  extend : Option Bool
  slackChannel : String
  deriving DecidableEq, Repr

/-- Result of a Kubernetes Delete call: success, "not found", or any other
error.  Mirrors the discrimination the code performs with
`err != nil && !apierrors.IsNotFound(err)`. -/
inductive DeleteRes where
  | ok
  | notFound
  | otherErr
  deriving DecidableEq, Repr

/-- `err == nil || apierrors.IsNotFound(err)`: the branch condition under which
the code logs the deletion as done. -/
def deleteSucceeded : DeleteRes → Bool
  | .ok => true
  | .notFound => true
  | .otherErr => false

/-- The manager loop's configuration fields read during a tick. -/
structure LoopConfig where
  maxRunnerPods : Int
  replicas : Int
  recreateDeadline : Int
  slackAgentServiceName : String
  slackChannel : String
  deriving DecidableEq, Repr

/-- Observable actions of one tick of the manager loop, in execution order.
Each per-pod event carries the pod name; delete events carry whether the call
counted as a success (`deleteSucceeded`). -/
inductive Event where
  | setLastCheckTime (t : Int)
  | getStatusFailed (pod : String)
  | deletedStale (pod : String) (success : Bool)
  | notified (pod : String) (channel : String) (success : Bool)
  | deletedDebugging (pod : String) (success : Bool)
  | deletedRecreate (pod : String) (success : Bool)
  | unlinked (pod : String)
  | unlinkFailed (pod : String)
  deriving DecidableEq, Repr

/-- `podExists` (source lines 423-430). -/
def podExists (name : String) (podList : List Pod) : Bool :=
  podList.any (fun po => po.name = name)

/-- `runnerBusy` (source lines 399-406): first runner with a matching name
decides; absent name means not busy. -/
def runnerBusy : List Runner → String → Bool
  | [], _ => false
  | r :: rest, name => if r.name = name then r.busy else runnerBusy rest name

/-- `difference(prev, current)` (source lines 284-297): the elements of `prev`
that are not in the set built from `current`, in the order of `prev`. -/
def difference (prev current : List String) : List String :=
  prev.filter (fun v => !(current.contains v))

/-- Channel selection of `notifyToSlack` (source lines 299-305): the status's
override channel when non-empty, the pool channel otherwise. -/
def notifySlackChannel (cfg : LoopConfig) (status : Status) : String :=
  if status.slackChannel = "" then cfg.slackChannel else status.slackChannel

/-- Count of pods already missing the template-hash label
(`numUnlabeledPods`, source lines 312-318). -/
def numUnlabeledPods (podList : List Pod) : Int :=
  ((podList.filter (fun po => !hasTemplateHashLabel po)).length : Int)

/-- `numRemovablePods` as initialized at the head of `maintainRunnerPods`
(source lines 319-324): `maxRunnerPods - replicas - numUnlabeledPods`,
clamped below at 0. -/
def numRemovablePodsInit (cfg : LoopConfig) (podList : List Pod) : Int :=
  let n := cfg.maxRunnerPods - cfg.replicas - numUnlabeledPods podList
  if n < 0 then 0 else n

/-- Result of evaluating the maintenance rules on one pod: the events emitted,
the pod's resulting state in the cluster (`none` when a delete call succeeded),
and the updated `numRemovablePods` counter. -/
structure PodResult where
  events : List Event
  pod : Option Pod
  numRemovable : Int
  deriving DecidableEq, Repr

/-- The tail of the per-pod rule chain: age-recycle rule (source lines
367-376) and detach rule (source lines 378-394), evaluated when no earlier
rule ended the pod's processing with `continue`. -/
def evalPodTail (cfg : LoopConfig) (runnerList : List Runner)
    (deleteRes : String → DeleteRes) (updateOk : String → Bool)
    (now : Int) (numRemovable : Int) (po : Pod) (state : RunnerPodState) :
    List Event × Option Pod × Int :=
  if po.creationTimestamp + cfg.recreateDeadline < now ∧
      ¬(runnerBusy runnerList po.name = true ∨ state = RunnerPodState.debugging) then
    let ok := deleteSucceeded (deleteRes po.name)
    ([Event.deletedRecreate po.name ok], if ok then none else some po, numRemovable)
  else if runnerBusy runnerList po.name = true ∨ state = RunnerPodState.debugging then
    if numRemovable ≤ 0 then ([], some po, numRemovable)
    else if !hasTemplateHashLabel po then ([], some po, numRemovable)
    else if updateOk po.name then
      ([Event.unlinked po.name], some (removeTemplateHashLabel po), numRemovable - 1)
    else
      ([Event.unlinkFailed po.name], some po, numRemovable)
  else ([], some po, numRemovable)

/-- The debugging branch after the notification check (source lines 356-364
plus the fall-through to lines 367-394): dereference `deletionTime`
(`none` = the Go nil-pointer panic at `*status.DeletionTime`), delete the pod
when `now` is strictly past it, otherwise continue with the age-recycle and
detach rules. -/
def evalPodDebugTail (cfg : LoopConfig) (runnerList : List Runner)
    (deleteRes : String → DeleteRes) (updateOk : String → Bool)
    (now : Int) (numRemovable : Int) (po : Pod) (status : Status) :
    Option PodResult :=
  match status.deletionTime with
  | none => none
  | some deletionTime =>
    if deletionTime < now then
      let ok := deleteSucceeded (deleteRes po.name)
      some ⟨[Event.deletedDebugging po.name ok], if ok then none else some po, numRemovable⟩
    else
      let t := evalPodTail cfg runnerList deleteRes updateOk now numRemovable po status.state
      some ⟨t.1, t.2.1, t.2.2⟩

/-- One iteration of the pod loop of `maintainRunnerPods` (source lines
326-395).  `statusOf` is the status GET per pod name (`none` = GET failed, the
pod is skipped); `deleteRes`, `updateOk`, `notifyOk` fix the results of the
Kubernetes Delete/Update calls and the chat POST.  The overall `none` result
embeds a Go nil-pointer panic inside the debugging branch: at `FinishedAt` in
the notification condition, at `*status.Extend` while building the
`notifyToSlack` call's arguments (line 304) when the notification branch is
taken, or at `*status.DeletionTime` in the deadline check. -/
def evalPod (cfg : LoopConfig) (runnerList : List Runner)
    (statusOf : String → Option Status) (deleteRes : String → DeleteRes)
    (updateOk : String → Bool) (notifyOk : String → Bool)
    (now lastCheckTime : Int) (numRemovable : Int) (po : Pod) :
    Option PodResult :=
  match statusOf po.name with
  | none => some ⟨[Event.getStatusFailed po.name], some po, numRemovable⟩
  | some status =>
    if status.state = RunnerPodState.stale then
      let ok := deleteSucceeded (deleteRes po.name)
      some ⟨[Event.deletedStale po.name ok], if ok then none else some po, numRemovable⟩
    else if status.state = RunnerPodState.debugging then
      match status.finishedAt with
      | none => none
      | some finishedAt =>
        if lastCheckTime < finishedAt ∧ cfg.slackAgentServiceName ≠ "" then
          match status.extend with
          | none => none
          | some _ =>
            (evalPodDebugTail cfg runnerList deleteRes updateOk
                now numRemovable po status).map
              (fun r => ⟨Event.notified po.name (notifySlackChannel cfg status)
                (notifyOk po.name) :: r.events, r.pod, r.numRemovable⟩)
        else
          evalPodDebugTail cfg runnerList deleteRes updateOk now numRemovable po status
    else
      let t := evalPodTail cfg runnerList deleteRes updateOk now numRemovable po status.state
      some ⟨t.1, t.2.1, t.2.2⟩

/-- Intermediate result of the pod loop: accumulated events, surviving pods,
final `numRemovablePods`. -/
structure LoopResult where
  events : List Event
  pods : List Pod
  numRemovable : Int
  deriving DecidableEq, Repr

/-- The pod loop of `maintainRunnerPods`, threading `numRemovablePods`. -/
def maintainLoop (cfg : LoopConfig) (runnerList : List Runner)
    (statusOf : String → Option Status) (deleteRes : String → DeleteRes)
    (updateOk : String → Bool) (notifyOk : String → Bool)
    (now lastCheckTime : Int) : List Pod → Int → Option LoopResult
  | [], r => some ⟨[], [], r⟩
  | po :: rest, r =>
    match evalPod cfg runnerList statusOf deleteRes updateOk notifyOk
        now lastCheckTime r po with
    | none => none
    | some res =>
      match maintainLoop cfg runnerList statusOf deleteRes updateOk notifyOk
          now lastCheckTime rest res.numRemovable with
      | none => none
      | some lres =>
        some ⟨res.events ++ lres.events, res.pod.toList ++ lres.pods, lres.numRemovable⟩

/-- Result of one run of Phase C: the event trace in execution order, the pods
still present afterwards, the loop's stored `lastCheckTime` after the phase,
and the final `numRemovablePods` counter. -/
structure TickResult where
  events : List Event
  pods : List Pod
  lastCheckTime : Int
  numRemovable : Int
  deriving DecidableEq, Repr

/-- `maintainRunnerPods` (source lines 307-397).  Per lines 308-310, the
tick's `now` is taken, the previous `lastCheckTime` is saved into a local, and
the stored field is assigned `now` immediately — before the pod loop runs; the
event trace therefore starts with `setLastCheckTime now`.  All `finishedAt`
comparisons in the loop use the saved previous value. -/
def maintainRunnerPods (cfg : LoopConfig) (runnerList : List Runner)
    (statusOf : String → Option Status) (deleteRes : String → DeleteRes)
    (updateOk : String → Bool) (notifyOk : String → Bool)
    (now lastCheckTime : Int) (podList : List Pod) : Option TickResult :=
  match maintainLoop cfg runnerList statusOf deleteRes updateOk notifyOk
      now lastCheckTime podList (numRemovablePodsInit cfg podList) with
  | none => none
  | some lres =>
    some ⟨Event.setLastCheckTime now :: lres.events, lres.pods, now, lres.numRemovable⟩

/-- Number of successful detachments recorded in a trace. -/
def countUnlinked (evs : List Event) : Int :=
  ((evs.filter (fun e => match e with | Event.unlinked _ => true | _ => false)).length : Int)

/-- Phase D, `deleteOfflineRunners` (source lines 408-421): walk the runner
list; skip a runner that is online or whose name matches a pod; otherwise call
RemoveRunner (result fixed by the oracle `removeOk`, keyed by runner id) and
abort with the error on failure.  Returns the ids of the runners for which a
RemoveRunner call was issued, and whether the phase finished without error. -/
def deleteOfflineRunners (removeOk : Nat → Bool) (podList : List Pod) :
    List Runner → List Nat × Bool
  | [] => ([], true)
  | r :: rest =>
    if r.online || podExists r.name podList then
      deleteOfflineRunners removeOk podList rest
    else if removeOk r.id then
      (r.id :: (deleteOfflineRunners removeOk podList rest).1,
        (deleteOfflineRunners removeOk podList rest).2)
    else ([r.id], false)

/-- The CI-provider registry: pairs of (repository, runner). -/
abbrev Registry := List (String × Runner)

/-- `ListRunners(repo, labels)` per the gateway contract: the repository's
runners whose label set includes every requested label. -/
def ListRunners (reg : Registry) (repo : String) (labels : List String) : List Runner :=
  (reg.filter (fun p => p.1 = repo ∧ labels.all (fun l => p.2.labels.contains l))).map
    (fun p => p.2)

/-- `RemoveRunner(repo, id)`: deregister every runner of the repository with
the given id. -/
def RemoveRunner (reg : Registry) (repo : String) (id : Nat) : Registry :=
  reg.filter (fun p => ¬(p.1 = repo ∧ p.2.id = id))

/-- The deregistration loop of `RunnerManagerImpl.Stop` (source lines 83-90):
for each runner in the obtained list call RemoveRunner and return the first
error immediately.  Returns the ids for which a call was issued (the failing
call included), the resulting registry, and whether the loop finished without
error. -/
def stopRemoveRunners (removeOk : Nat → Bool) (repo : String) :
    List Runner → Registry → List Nat × Registry × Bool
  | [], reg => ([], reg, true)
  | r :: rest, reg =>
    if removeOk r.id then
      (r.id :: (stopRemoveRunners removeOk repo rest (RemoveRunner reg repo r.id)).1,
        (stopRemoveRunners removeOk repo rest (RemoveRunner reg repo r.id)).2)
    else ([r.id], reg, false)

/-- Per-loop state relevant to teardown: the previous tick's runner names
(`managerLoop.prevRunnerNames`). -/
structure LoopState where
  prevRunnerNames : List String
  deriving DecidableEq, Repr

/-- The supervisor's state visible to `Stop`: the pool-identity keyed loop
map and the registered gauges (`runnerpool_replicas` keyed by pool,
per-runner gauges keyed by pool and runner name). -/
structure ManagerState where
  loops : List (String × LoopState)
  poolGauges : List String
  runnerGauges : List (String × String)
  deriving DecidableEq, Repr

/-- Pool object fields `Stop` reads: namespace, name, repository. -/
structure RunnerPool where
  ns : String
  name : String
  repositoryName : String
  deriving DecidableEq, Repr

/-- `namespacedName(namespace, name)` (source lines 30-32). -/
def namespacedName (ns name : String) : String := ns ++ "/" ++ name

/-- `metrics.DeleteRunnerMetrics(pool, runner)`. -/
def DeleteRunnerMetrics (st : ManagerState) (pool runner : String) : ManagerState :=
  { st with runnerGauges := st.runnerGauges.filter (fun g => ¬(g.1 = pool ∧ g.2 = runner)) }

/-- `metrics.DeleteRunnerPoolMetrics(pool)`. -/
def DeleteRunnerPoolMetrics (st : ManagerState) (pool : String) : ManagerState :=
  { st with poolGauges := st.poolGauges.filter (fun p => p ≠ pool) }

/-- `managerLoop.stop` (source lines 191-205), metrics part: delete the
per-runner gauges for each name in `prevRunnerNames`, then the pool gauge.
(The loop cancellation and join are concurrency and are not modelled.) -/
def managerLoopStop (st : ManagerState) (pool : String) (loop : LoopState) : ManagerState :=
  DeleteRunnerPoolMetrics
    (loop.prevRunnerNames.foldl (fun s n => DeleteRunnerMetrics s pool n) st) pool

/-- Lookup of the loop map (`m.loops[rpNamespacedName]`). -/
def lookupLoop (loops : List (String × LoopState)) (key : String) : Option LoopState :=
  (loops.find? (fun p => p.1 = key)).map (fun p => p.2)

/-- `RunnerManagerImpl.Stop` (source lines 69-92): stop and drop the loop for
the pool identity when one exists (which purges its gauges), then list the
CI-provider runners of the pool's repository tagged with the pool identity and
deregister each, returning the first error.  `removeOk` fixes each
RemoveRunner call's outcome. -/
def Stop (removeOk : Nat → Bool) (st : ManagerState) (reg : Registry)
    (rp : RunnerPool) : ManagerState × Registry × Bool :=
  let key := namespacedName rp.ns rp.name
  let st1 :=
    match lookupLoop st.loops key with
    | some loop =>
      let s := managerLoopStop st key loop
      { s with loops := s.loops.filter (fun p => p.1 ≠ key) }
    | none => st
  let runnerList := ListRunners reg rp.repositoryName [key]
  (st1, (stopRemoveRunners removeOk rp.repositoryName runnerList reg).2.1,
    (stopRemoveRunners removeOk rp.repositoryName runnerList reg).2.2)

/-- Phase B, `updateMetrics` (source lines 265-282), runner-gauge part: build
the current runner-name list, delete the per-runner gauges for
`difference(prevRunnerNames, current)`, and replace `prevRunnerNames` with the
current list.  Returns (deleted gauge names, new `prevRunnerNames`). -/
def updateMetrics (runnerList : List Runner) (prevRunnerNames : List String) :
    List String × List String :=
  let currentRunnerNames := runnerList.map (fun r => r.name)
  (difference prevRunnerNames currentRunnerNames, currentRunnerNames)

/-- Replace every "not found" Delete outcome by a plain success; used to state
that the reconciliation treats the two identically. -/
def treatNotFoundAsOk : DeleteRes → DeleteRes
  | .notFound => .ok
  | r => r

/-- Every event except the `lastCheckTime` store stems from a per-pod rule
evaluation. -/
def isPodEvent : Event → Bool
  | Event.setLastCheckTime _ => false
  | _ => true

/-- Whether, in a trace, the `lastCheckTime` store happens only after every
per-pod rule evaluation: no per-pod event follows a store event. -/
def storeAfterPodEvents : List Event → Bool
  | [] => true
  | Event.setLastCheckTime _ :: rest => rest.all (fun e => !isPodEvent e)
  | _ :: rest => storeAfterPodEvents rest

/-! ## Helper lemmas -/

theorem mem_difference (prev current : List String) (x : String) :
    x ∈ difference prev current ↔ x ∈ prev ∧ x ∉ current := by
  simp [difference, List.mem_filter]

/-! ## Claims -/

/-- C9: in every tick's Phase B, the per-runner gauges deleted are exactly
those whose names occur in the previous tick's runner-name set but not in the
current tick's, and afterwards `prevRunnerNames` equals the current tick's
runner-name list. -/
theorem updateMetrics_deletes_exactly_vanished (runnerList : List Runner)
    (prev : List String) :
    (∀ n, n ∈ (updateMetrics runnerList prev).1 ↔
      n ∈ prev ∧ n ∉ runnerList.map (fun r => r.name)) ∧
    (updateMetrics runnerList prev).2 = runnerList.map (fun r => r.name) := by
  refine ⟨fun n => ?_, rfl⟩
  exact mem_difference prev (runnerList.map (fun r => r.name)) n

/-- C1: assuming Phase D finishes without a deregistration error, the runners
for which the phase issues a RemoveRunner call are exactly the runners of the
Phase-A list that are offline and whose name matches no pod of the Phase-A
pod list; online and pod-backed runners are never touched. -/
theorem deleteOfflineRunners_deregisters_exactly_offline_orphans
    (removeOk : Nat → Bool) (podList : List Pod) (runnerList : List Runner)
    (hok : (deleteOfflineRunners removeOk podList runnerList).2 = true) :
    (deleteOfflineRunners removeOk podList runnerList).1 =
      (runnerList.filter
        (fun r => !(r.online || podExists r.name podList))).map (fun r => r.id) := by
  induction runnerList with
  | nil => rfl
  | cons r rest ih =>
    by_cases h : (r.online || podExists r.name podList) = true
    · rw [deleteOfflineRunners, if_pos h] at hok ⊢
      rw [List.filter_cons_of_neg (by simp [h])]
      exact ih hok
    · rw [deleteOfflineRunners, if_neg h] at hok ⊢
      rw [List.filter_cons_of_pos (by simp at h; simp [h])]
      by_cases hr : removeOk r.id = true
      · rw [if_pos hr] at hok ⊢
        simp only [List.map_cons]
        exact congrArg (List.cons r.id) (ih hok)
      · rw [if_neg hr] at hok
        simp at hok

/-- Witness for the offline-orphan claim: two offline orphan runners and one
online runner, all removals succeeding. -/
theorem deleteOfflineRunners_deregisters_exactly_offline_orphans_witness :
    (deleteOfflineRunners (fun _ => true) [⟨"pod9", 0, []⟩]
      [⟨1, "pod1", false, false, []⟩, ⟨2, "pod9", false, false, []⟩,
        ⟨3, "pod3", true, false, []⟩]).2 = true ∧
    (deleteOfflineRunners (fun _ => true) [⟨"pod9", 0, []⟩]
      [⟨1, "pod1", false, false, []⟩, ⟨2, "pod9", false, false, []⟩,
        ⟨3, "pod3", true, false, []⟩]).1 = [1] :=
  ⟨by decide,
    by
      rw [deleteOfflineRunners_deregisters_exactly_offline_orphans
        (fun _ => true) [⟨"pod9", 0, []⟩]
        [⟨1, "pod1", false, false, []⟩, ⟨2, "pod9", false, false, []⟩,
          ⟨3, "pod3", true, false, []⟩] (by decide)]
      decide⟩

/-- C2 counterexample: the claim says that when some deregister call fails,
`Stop` still attempts a call for every runner of the obtained list.  With two
runners (ids 1 and 2) and the call for id 1 failing, the loop returns the
error having attempted only id 1: id 2 is skipped because the earlier call
failed. -/
theorem Stop_skips_runners_after_first_failure_cex :
    (stopRemoveRunners (fun id => id != 1) "repo1"
      [⟨1, "pod1", false, false, []⟩, ⟨2, "pod2", false, false, []⟩] []).2.2 = false ∧
    (stopRemoveRunners (fun id => id != 1) "repo1"
      [⟨1, "pod1", false, false, []⟩, ⟨2, "pod2", false, false, []⟩] []).1 = [1] ∧
    2 ∉ (stopRemoveRunners (fun id => id != 1) "repo1"
      [⟨1, "pod1", false, false, []⟩, ⟨2, "pod2", false, false, []⟩] []).1 := by
  refine ⟨rfl, rfl, ?_⟩
  decide

/-- C2 amended: for every runner list obtained during `Stop`, the loop
succeeds exactly when every deregister call would succeed, and the calls it
attempts are the longest prefix of succeeding runners followed by the first
failing runner when there is one; runners after the first failure are not
attempted, and the first error is returned. -/
theorem stopRemoveRunners_attempts_up_to_first_failure
    (removeOk : Nat → Bool) (repo : String) (runnerList : List Runner) (reg : Registry) :
    (stopRemoveRunners removeOk repo runnerList reg).2.2 =
      runnerList.all (fun r => removeOk r.id) ∧
    (stopRemoveRunners removeOk repo runnerList reg).1 =
      (runnerList.takeWhile (fun r => removeOk r.id)).map (fun r => r.id) ++
        (((runnerList.dropWhile (fun r => removeOk r.id)).head?).map
          (fun r => r.id)).toList := by
  induction runnerList generalizing reg with
  | nil => exact ⟨rfl, rfl⟩
  | cons r rest ih =>
    by_cases hr : removeOk r.id = true
    · rw [stopRemoveRunners, if_pos hr]
      constructor
      · simpa [hr] using (ih (RemoveRunner reg repo r.id)).1
      · rw [List.takeWhile_cons, List.dropWhile_cons]
        simpa [hr] using (ih (RemoveRunner reg repo r.id)).2
    · rw [stopRemoveRunners, if_neg hr]
      constructor
      · simp [List.all_cons, Bool.eq_false_iff.mpr hr]
      · rw [List.takeWhile_cons, List.dropWhile_cons]
        simp [hr]

theorem deleteSucceeded_treatNotFoundAsOk (r : DeleteRes) :
    deleteSucceeded (treatNotFoundAsOk r) = deleteSucceeded r := by
  cases r <;> rfl

theorem evalPodDebugTail_treatNotFoundAsOk (cfg : LoopConfig)
    (runnerList : List Runner) (deleteRes : String → DeleteRes)
    (updateOk : String → Bool) (now numRemovable : Int) (po : Pod)
    (status : Status) :
    evalPodDebugTail cfg runnerList (fun n => treatNotFoundAsOk (deleteRes n))
      updateOk now numRemovable po status =
    evalPodDebugTail cfg runnerList deleteRes updateOk
      now numRemovable po status := by
  unfold evalPodDebugTail
  cases hdt : status.deletionTime with
  | none => rfl
  | some dt =>
    by_cases h3 : dt < now
    · simp [h3, deleteSucceeded_treatNotFoundAsOk]
    · simp [h3, evalPodTail, deleteSucceeded_treatNotFoundAsOk]

theorem evalPod_treatNotFoundAsOk (cfg : LoopConfig) (runnerList : List Runner)
    (statusOf : String → Option Status) (deleteRes : String → DeleteRes)
    (updateOk : String → Bool) (notifyOk : String → Bool)
    (now lastCheckTime : Int) (numRemovable : Int) (po : Pod) :
    evalPod cfg runnerList statusOf (fun n => treatNotFoundAsOk (deleteRes n))
      updateOk notifyOk now lastCheckTime numRemovable po =
    evalPod cfg runnerList statusOf deleteRes updateOk notifyOk
      now lastCheckTime numRemovable po := by
  unfold evalPod
  cases hst : statusOf po.name with
  | none => rfl
  | some status =>
    by_cases h1 : status.state = RunnerPodState.stale
    · simp only [if_pos h1, deleteSucceeded_treatNotFoundAsOk]
    · by_cases h2 : status.state = RunnerPodState.debugging
      · simp only [if_neg h1, if_pos h2]
        cases status.finishedAt with
        | none => rfl
        | some fa =>
          by_cases hcond : lastCheckTime < fa ∧ cfg.slackAgentServiceName ≠ ""
          · simp only [if_pos hcond]
            cases status.extend with
            | none => rfl
            | some e =>
              rw [evalPodDebugTail_treatNotFoundAsOk]
          · simp only [if_neg hcond]
            exact evalPodDebugTail_treatNotFoundAsOk cfg runnerList deleteRes
              updateOk now numRemovable po status
      · simp only [if_neg h1, if_neg h2]
        simp [evalPodTail, deleteSucceeded_treatNotFoundAsOk]

theorem maintainLoop_treatNotFoundAsOk (cfg : LoopConfig) (runnerList : List Runner)
    (statusOf : String → Option Status) (deleteRes : String → DeleteRes)
    (updateOk : String → Bool) (notifyOk : String → Bool)
    (now lastCheckTime : Int) (podList : List Pod) (numRemovable : Int) :
    maintainLoop cfg runnerList statusOf (fun n => treatNotFoundAsOk (deleteRes n))
      updateOk notifyOk now lastCheckTime podList numRemovable =
    maintainLoop cfg runnerList statusOf deleteRes updateOk notifyOk
      now lastCheckTime podList numRemovable := by
  induction podList generalizing numRemovable with
  | nil => rfl
  | cons po rest ih =>
    rw [maintainLoop, maintainLoop, evalPod_treatNotFoundAsOk]
    cases evalPod cfg runnerList statusOf deleteRes updateOk notifyOk
        now lastCheckTime numRemovable po with
    | none => rfl
    | some res =>
      dsimp only
      rw [ih]

/-- C8: every pod deletion issued during a tick treats a "not found" response
exactly like a success: replacing each "not found" Delete outcome by a plain
success changes nothing about the tick — same event trace (the delete is
logged as done), same surviving pods, same counters — and, as in the code,
no error is ever propagated out of the pod-maintenance phase for any Delete
outcome. -/
theorem maintainRunnerPods_notFound_is_success (cfg : LoopConfig)
    (runnerList : List Runner) (statusOf : String → Option Status)
    (deleteRes : String → DeleteRes) (updateOk : String → Bool)
    (notifyOk : String → Bool) (now lastCheckTime : Int) (podList : List Pod) :
    maintainRunnerPods cfg runnerList statusOf
      (fun n => treatNotFoundAsOk (deleteRes n)) updateOk notifyOk
      now lastCheckTime podList =
    maintainRunnerPods cfg runnerList statusOf deleteRes updateOk notifyOk
      now lastCheckTime podList := by
  unfold maintainRunnerPods
  rw [maintainLoop_treatNotFoundAsOk]

theorem evalPodTail_pod_eq_none_iff (cfg : LoopConfig) (runnerList : List Runner)
    (deleteRes : String → DeleteRes) (updateOk : String → Bool)
    (now numRemovable : Int) (po : Pod) (state : RunnerPodState)
    (hdel : deleteSucceeded (deleteRes po.name) = true) :
    (evalPodTail cfg runnerList deleteRes updateOk now numRemovable po state).2.1 = none ↔
      (po.creationTimestamp + cfg.recreateDeadline < now ∧
        ¬(runnerBusy runnerList po.name = true ∨ state = RunnerPodState.debugging)) := by
  unfold evalPodTail
  by_cases hc : po.creationTimestamp + cfg.recreateDeadline < now ∧
      ¬(runnerBusy runnerList po.name = true ∨ state = RunnerPodState.debugging)
  · simp [hc, hdel]
  · rw [if_neg hc]
    split_ifs <;> exact iff_of_false (by simp) hc

theorem evalPodDebugTail_pod_eq_none_iff (cfg : LoopConfig)
    (runnerList : List Runner) (deleteRes : String → DeleteRes)
    (updateOk : String → Bool) (now numRemovable : Int) (po : Pod)
    (st : Status) (dt : Int) (hdt : st.deletionTime = some dt)
    (hlt : ¬ dt < now) (hdel : deleteSucceeded (deleteRes po.name) = true) :
    ((evalPodDebugTail cfg runnerList deleteRes updateOk
        now numRemovable po st).map (fun res => res.pod) = some none) ↔
      (po.creationTimestamp + cfg.recreateDeadline < now ∧
        ¬(runnerBusy runnerList po.name = true ∨
          st.state = RunnerPodState.debugging)) := by
  unfold evalPodDebugTail
  rw [hdt]
  dsimp only
  rw [if_neg hlt]
  exact Option.some_inj.trans (evalPodTail_pod_eq_none_iff cfg runnerList deleteRes
    updateOk now numRemovable po st.state hdel)

/-- C5 counterexample: a debugging pod whose `deletionTime` equals the tick's
`now` is not deleted, although the claim ("if now ≥ status.deletionTime the
pod is deleted this tick") requires deletion: Go's `time.After` is strict.
Here now = 6 = deletionTime, a delete would succeed, and the pod survives the
rule evaluation untouched with no event. -/
theorem debug_deadline_boundary_not_deleted_cex :
    ((6 : Int) ≥ 6) ∧
    evalPod ⟨3, 1, 100, "svc", "#pool"⟩ []
      (fun _ => some ⟨RunnerPodState.debugging, some 0, some 6, some false, ""⟩)
      (fun _ => DeleteRes.ok) (fun _ => true) (fun _ => true) 6 5 1 ⟨"pod1", 0, []⟩ =
      some ⟨[], some ⟨"pod1", 0, []⟩, 1⟩ := by
  exact ⟨by decide, by decide⟩

/-- C5 amended: for every pod whose status state is debugging, if now is
STRICTLY past `status.deletionTime` (the code uses Go's strict `After`, so at
`now = deletionTime` nothing happens), the delete call succeeds, and the
status's `extend` flag is present whenever the notification branch is taken
(the code dereferences `*status.Extend` while building the `notifyToSlack`
arguments and would panic on nil), then the pod is deleted this tick; when
additionally a chat service is configured and `status.finishedAt >
lastCheckTime`, exactly one notification is emitted before the deletion, to
the status's override channel when non-empty and the pool channel
otherwise. -/
theorem debugging_pod_notify_then_delete (cfg : LoopConfig)
    (runnerList : List Runner) (statusOf : String → Option Status)
    (deleteRes : String → DeleteRes) (updateOk : String → Bool)
    (notifyOk : String → Bool) (now lastCheckTime numRemovable : Int)
    (po : Pod) (st : Status) (fa dt : Int)
    (hst : statusOf po.name = some st)
    (hdbg : st.state = RunnerPodState.debugging)
    (hfa : st.finishedAt = some fa)
    (hdt : st.deletionTime = some dt)
    (hnow : dt < now)
    (hdel : deleteSucceeded (deleteRes po.name) = true)
    (hext : lastCheckTime < fa ∧ cfg.slackAgentServiceName ≠ "" →
      st.extend ≠ none) :
    evalPod cfg runnerList statusOf deleteRes updateOk notifyOk
      now lastCheckTime numRemovable po =
      some ⟨(if lastCheckTime < fa ∧ cfg.slackAgentServiceName ≠ "" then
          [Event.notified po.name (notifySlackChannel cfg st) (notifyOk po.name)]
        else []) ++ [Event.deletedDebugging po.name true], none, numRemovable⟩ := by
  have hns : ¬ st.state = RunnerPodState.stale := by
    rw [hdbg]; intro h; cases h
  by_cases hn : lastCheckTime < fa ∧ cfg.slackAgentServiceName ≠ ""
  · obtain ⟨e, he⟩ : ∃ e, st.extend = some e := by
      cases hev : st.extend with
      | none => exact absurd hev (hext hn)
      | some e => exact ⟨e, rfl⟩
    unfold evalPod evalPodDebugTail
    simp [hst, hns, hdbg, hfa, he, hdt, hnow, hdel, hn]
  · unfold evalPod evalPodDebugTail
    simp [hst, hns, hdbg, hfa, hdt, hnow, hdel, hn]

/-- C5 witness: a debugging pod past its deadline with a fresh `finishedAt`,
a present `extend` flag, a configured chat service and an override channel;
the delete returns "not found" (counted as success). -/
theorem debugging_pod_notify_then_delete_witness :
    ((fun _ : String => some (⟨RunnerPodState.debugging, some 10, some 5, some true, "#ovr"⟩ : Status)) "pod1" =
      some ⟨RunnerPodState.debugging, some 10, some 5, some true, "#ovr"⟩) ∧
    ((5 : Int) < 6) ∧
    (deleteSucceeded ((fun _ : String => DeleteRes.notFound) "pod1") = true) ∧
    ((5 : Int) < 10 ∧ ("svc" : String) ≠ "" →
      (⟨RunnerPodState.debugging, some 10, some 5, some true, "#ovr"⟩ : Status).extend ≠ none) ∧
    evalPod ⟨3, 1, 100, "svc", "#pool"⟩ []
      (fun _ => some ⟨RunnerPodState.debugging, some 10, some 5, some true, "#ovr"⟩)
      (fun _ => DeleteRes.notFound) (fun _ => true) (fun _ => true) 6 5 0 ⟨"pod1", 0, []⟩ =
      some ⟨[Event.notified "pod1" "#ovr" true, Event.deletedDebugging "pod1" true],
        none, 0⟩ := by
  refine ⟨rfl, by decide, by decide, by decide, ?_⟩
  have h := debugging_pod_notify_then_delete ⟨3, 1, 100, "svc", "#pool"⟩ []
    (fun _ => some ⟨RunnerPodState.debugging, some 10, some 5, some true, "#ovr"⟩)
    (fun _ => DeleteRes.notFound) (fun _ => true) (fun _ => true) 6 5 0 ⟨"pod1", 0, []⟩
    ⟨RunnerPodState.debugging, some 10, some 5, some true, "#ovr"⟩ 10 5
    rfl rfl rfl rfl (by decide) (by decide) (by decide)
  rw [h]
  decide

/-- C7 counterexample: a pod whose age exactly equals the recreate deadline
(now = creationTime + recreateDeadline), idle and not debugging, with a
delete that would succeed, is NOT deleted — the claim's `now ≥ creationTime +
recreateDeadline` requires deletion at the boundary, but the code uses Go's
strict `Before`. -/
theorem age_recycle_boundary_not_deleted_cex :
    ((100 : Int) ≥ 0 + 100) ∧
    evalPod ⟨3, 1, 100, "svc", "#pool"⟩ []
      (fun _ => some ⟨RunnerPodState.running, some 0, some 0, none, ""⟩)
      (fun _ => DeleteRes.ok) (fun _ => true) (fun _ => true) 100 5 1 ⟨"pod1", 0, []⟩ =
      some ⟨[], some ⟨"pod1", 0, []⟩, 1⟩ := by
  exact ⟨by decide, by decide⟩

/-- C7 amended: for every pod with a retrieved status that is neither stale
nor deleted by the debug-deadline rule, and whose delete call would succeed,
the pod is deleted by the age-recycle rule if and only if now is STRICTLY
past `creationTime + recreateDeadline` (the code uses Go's strict `Before`,
so the boundary instant does not trigger) and the pod is neither busy per
the CI-provider list nor debugging. -/
theorem age_recycle_deletes_iff (cfg : LoopConfig) (runnerList : List Runner)
    (statusOf : String → Option Status) (deleteRes : String → DeleteRes)
    (updateOk : String → Bool) (notifyOk : String → Bool)
    (now lastCheckTime numRemovable : Int) (po : Pod) (st : Status)
    (hst : statusOf po.name = some st)
    (hnstale : ¬ st.state = RunnerPodState.stale)
    (hnodebugdel : st.state = RunnerPodState.debugging →
      ∃ fa dt, st.finishedAt = some fa ∧ st.deletionTime = some dt ∧ ¬ dt < now)
    (hdel : deleteSucceeded (deleteRes po.name) = true) :
    ((evalPod cfg runnerList statusOf deleteRes updateOk notifyOk
        now lastCheckTime numRemovable po).map (fun res => res.pod) = some none) ↔
      (po.creationTimestamp + cfg.recreateDeadline < now ∧
        ¬(runnerBusy runnerList po.name = true ∨ st.state = RunnerPodState.debugging)) := by
  by_cases hdbg : st.state = RunnerPodState.debugging
  · obtain ⟨fa, dt, hfa, hdt, hlt⟩ := hnodebugdel hdbg
    unfold evalPod
    rw [hst]
    dsimp only
    rw [if_neg hnstale, if_pos hdbg, hfa]
    dsimp only
    by_cases hcond : lastCheckTime < fa ∧ cfg.slackAgentServiceName ≠ ""
    · rw [if_pos hcond]
      cases hex : st.extend with
      | none =>
        refine iff_of_false (by simp) ?_
        rintro ⟨-, hnb⟩
        exact hnb (Or.inr hdbg)
      | some e =>
        rw [Option.map_map]
        exact evalPodDebugTail_pod_eq_none_iff cfg runnerList deleteRes updateOk
          now numRemovable po st dt hdt hlt hdel
    · rw [if_neg hcond]
      exact evalPodDebugTail_pod_eq_none_iff cfg runnerList deleteRes updateOk
        now numRemovable po st dt hdt hlt hdel
  · unfold evalPod
    rw [hst]
    dsimp only
    rw [if_neg hnstale, if_neg hdbg]
    exact Option.some_inj.trans (evalPodTail_pod_eq_none_iff cfg runnerList deleteRes
      updateOk now numRemovable po st.state hdel)

/-- C7 witness: an idle, non-debugging pod one unit past its recreate
deadline is deleted; instantiating the iff at a concrete over-age pod. -/
theorem age_recycle_deletes_iff_witness :
    ((fun _ : String => some (⟨RunnerPodState.running, none, none, none, ""⟩ : Status)) "pod1" =
      some ⟨RunnerPodState.running, none, none, none, ""⟩) ∧
    (¬ (⟨RunnerPodState.running, none, none, none, ""⟩ : Status).state = RunnerPodState.stale) ∧
    (deleteSucceeded ((fun _ : String => DeleteRes.ok) "pod1") = true) ∧
    ((evalPod ⟨3, 1, 100, "svc", "#pool"⟩ []
        (fun _ => some ⟨RunnerPodState.running, none, none, none, ""⟩)
        (fun _ => DeleteRes.ok) (fun _ => true) (fun _ => true) 101 5 1
        ⟨"pod1", 0, []⟩).map (fun res => res.pod) = some none) := by
  refine ⟨rfl, by decide, by decide, ?_⟩
  rw [age_recycle_deletes_iff ⟨3, 1, 100, "svc", "#pool"⟩ []
    (fun _ => some ⟨RunnerPodState.running, none, none, none, ""⟩)
    (fun _ => DeleteRes.ok) (fun _ => true) (fun _ => true) 101 5 1
    ⟨"pod1", 0, []⟩ ⟨RunnerPodState.running, none, none, none, ""⟩
    rfl (by decide) (by intro h; cases h) (by decide)]
  decide

/-- C10: a debugging pod whose status carries no `deletionTime` (the field is
optional in the status interface) makes the maintenance phase dereference a
nil pointer: the per-pod evaluation — and with it the whole tick — aborts
(`none` embeds the Go panic at `*status.DeletionTime`), instead of completing
for this and the remaining pods as the claim requires. -/
theorem debugging_without_deletionTime_panics :
    maintainRunnerPods ⟨3, 1, 100, "svc", "#pool"⟩ []
      (fun _ => some ⟨RunnerPodState.debugging, some 0, none, none, ""⟩)
      (fun _ => DeleteRes.ok) (fun _ => true) (fun _ => true) 6 5
      [⟨"pod1", 0, []⟩, ⟨"pod2", 0, []⟩] = none := by
  decide

theorem countUnlinked_append (a b : List Event) :
    countUnlinked (a ++ b) = countUnlinked a + countUnlinked b := by
  simp [countUnlinked, List.filter_append]

theorem numUnlabeledPods_append (a b : List Pod) :
    numUnlabeledPods (a ++ b) = numUnlabeledPods a + numUnlabeledPods b := by
  simp [numUnlabeledPods, List.filter_append]

theorem numUnlabeledPods_nonneg (l : List Pod) : 0 ≤ numUnlabeledPods l := by
  simp [numUnlabeledPods]

theorem hasTemplateHashLabel_remove (po : Pod) :
    hasTemplateHashLabel (removeTemplateHashLabel po) = false := by
  simp [hasTemplateHashLabel, removeTemplateHashLabel]

theorem evalPodTail_counter (cfg : LoopConfig) (runnerList : List Runner)
    (deleteRes : String → DeleteRes) (updateOk : String → Bool)
    (now numRemovable : Int) (po : Pod) (state : RunnerPodState) :
    (evalPodTail cfg runnerList deleteRes updateOk now numRemovable po state).2.2 +
        countUnlinked (evalPodTail cfg runnerList deleteRes updateOk now numRemovable po state).1 =
      numRemovable ∧
    (0 ≤ numRemovable →
      0 ≤ (evalPodTail cfg runnerList deleteRes updateOk now numRemovable po state).2.2) ∧
    numUnlabeledPods
        (evalPodTail cfg runnerList deleteRes updateOk now numRemovable po state).2.1.toList ≤
      numUnlabeledPods [po] +
        countUnlinked (evalPodTail cfg runnerList deleteRes updateOk now numRemovable po state).1 := by
  unfold evalPodTail
  split_ifs with h1 h2 h3 h4 h5
  · refine ⟨by simp [countUnlinked], fun h => h, ?_⟩
    dsimp only
    split_ifs <;> simp [numUnlabeledPods, countUnlinked]
  · exact ⟨by simp [countUnlinked], fun h => h, by simp [countUnlinked]⟩
  · exact ⟨by simp [countUnlinked], fun h => h, by simp [countUnlinked]⟩
  · refine ⟨by simp [countUnlinked], fun _ => by dsimp only; omega, ?_⟩
    simp [numUnlabeledPods, countUnlinked, hasTemplateHashLabel_remove, h4]
  · exact ⟨by simp [countUnlinked], fun h => h, by simp [countUnlinked]⟩
  · exact ⟨by simp [countUnlinked], fun h => h, by simp [countUnlinked]⟩

theorem evalPodDebugTail_counter (cfg : LoopConfig) (runnerList : List Runner)
    (deleteRes : String → DeleteRes) (updateOk : String → Bool)
    (now numRemovable : Int) (po : Pod) (status : Status) (res : PodResult)
    (h : evalPodDebugTail cfg runnerList deleteRes updateOk
      now numRemovable po status = some res) :
    res.numRemovable + countUnlinked res.events = numRemovable ∧
    (0 ≤ numRemovable → 0 ≤ res.numRemovable) ∧
    numUnlabeledPods res.pod.toList ≤ numUnlabeledPods [po] + countUnlinked res.events := by
  unfold evalPodDebugTail at h
  cases hdt : status.deletionTime with
  | none => rw [hdt] at h; cases h
  | some dt =>
    rw [hdt] at h
    dsimp only at h
    by_cases h3 : dt < now
    · rw [if_pos h3] at h
      cases h
      refine ⟨by simp [countUnlinked], fun hh => hh, ?_⟩
      split_ifs <;> simp [numUnlabeledPods, countUnlinked]
    · rw [if_neg h3] at h
      cases h
      have := evalPodTail_counter cfg runnerList deleteRes updateOk
        now numRemovable po status.state
      exact ⟨this.1, this.2.1, this.2.2⟩

theorem evalPod_counter (cfg : LoopConfig) (runnerList : List Runner)
    (statusOf : String → Option Status) (deleteRes : String → DeleteRes)
    (updateOk : String → Bool) (notifyOk : String → Bool)
    (now lastCheckTime numRemovable : Int) (po : Pod) (res : PodResult)
    (h : evalPod cfg runnerList statusOf deleteRes updateOk notifyOk
      now lastCheckTime numRemovable po = some res) :
    res.numRemovable + countUnlinked res.events = numRemovable ∧
    (0 ≤ numRemovable → 0 ≤ res.numRemovable) ∧
    numUnlabeledPods res.pod.toList ≤ numUnlabeledPods [po] + countUnlinked res.events := by
  unfold evalPod at h
  cases hst : statusOf po.name with
  | none =>
    rw [hst] at h
    cases h
    refine ⟨by simp [countUnlinked], fun h => h, ?_⟩
    simp [countUnlinked]
  | some status =>
    rw [hst] at h
    dsimp only at h
    by_cases h1 : status.state = RunnerPodState.stale
    · rw [if_pos h1] at h
      cases h
      refine ⟨by simp [countUnlinked], fun h => h, ?_⟩
      split_ifs <;> simp [numUnlabeledPods, countUnlinked]
    · rw [if_neg h1] at h
      by_cases h2 : status.state = RunnerPodState.debugging
      · rw [if_pos h2] at h
        cases hfa : status.finishedAt with
        | none => rw [hfa] at h; cases h
        | some fa =>
          rw [hfa] at h
          dsimp only at h
          by_cases hcond : lastCheckTime < fa ∧ cfg.slackAgentServiceName ≠ ""
          · rw [if_pos hcond] at h
            cases hex : status.extend with
            | none => rw [hex] at h; cases h
            | some e =>
              rw [hex] at h
              dsimp only at h
              cases hdtl : evalPodDebugTail cfg runnerList deleteRes updateOk
                  now numRemovable po status with
              | none => rw [hdtl] at h; cases h
              | some r0 =>
                rw [hdtl, Option.map_some'] at h
                cases h
                have hr := evalPodDebugTail_counter cfg runnerList deleteRes updateOk
                  now numRemovable po status r0 hdtl
                have hcu : countUnlinked (Event.notified po.name
                    (notifySlackChannel cfg status) (notifyOk po.name) :: r0.events) =
                    countUnlinked r0.events := by
                  simp [countUnlinked]
                refine ⟨?_, hr.2.1, ?_⟩
                · dsimp only
                  rw [hcu]
                  exact hr.1
                · dsimp only
                  rw [hcu]
                  exact hr.2.2
          · rw [if_neg hcond] at h
            exact evalPodDebugTail_counter cfg runnerList deleteRes updateOk
              now numRemovable po status res h
      · rw [if_neg h2] at h
        cases h
        have := evalPodTail_counter cfg runnerList deleteRes updateOk
          now numRemovable po status.state
        exact ⟨this.1, this.2.1, this.2.2⟩

theorem maintainLoop_counter (cfg : LoopConfig) (runnerList : List Runner)
    (statusOf : String → Option Status) (deleteRes : String → DeleteRes)
    (updateOk : String → Bool) (notifyOk : String → Bool) (now lastCheckTime : Int) :
    ∀ (podList : List Pod) (numRemovable : Int) (lres : LoopResult),
    maintainLoop cfg runnerList statusOf deleteRes updateOk notifyOk
      now lastCheckTime podList numRemovable = some lres →
    lres.numRemovable + countUnlinked lres.events = numRemovable ∧
    (0 ≤ numRemovable → 0 ≤ lres.numRemovable) ∧
    numUnlabeledPods lres.pods ≤ numUnlabeledPods podList + countUnlinked lres.events
  | [], r, lres, h => by
    cases h
    refine ⟨by simp [countUnlinked], fun h => h, by simp [countUnlinked, numUnlabeledPods]⟩
  | po :: rest, r, lres, h => by
    rw [maintainLoop] at h
    cases hev : evalPod cfg runnerList statusOf deleteRes updateOk notifyOk
        now lastCheckTime r po with
    | none => rw [hev] at h; cases h
    | some res =>
      rw [hev] at h
      dsimp only at h
      cases hrec : maintainLoop cfg runnerList statusOf deleteRes updateOk notifyOk
          now lastCheckTime rest res.numRemovable with
      | none => rw [hrec] at h; cases h
      | some lrec =>
        rw [hrec] at h
        dsimp only at h
        cases h
        have h1 := evalPod_counter cfg runnerList statusOf deleteRes updateOk notifyOk
          now lastCheckTime r po res hev
        have h2 := maintainLoop_counter cfg runnerList statusOf deleteRes updateOk notifyOk
          now lastCheckTime rest res.numRemovable lrec hrec
        refine ⟨?_, ?_, ?_⟩
        · dsimp only
          rw [countUnlinked_append]
          have := h1.1
          have := h2.1
          omega
        · intro hr
          exact h2.2.1 (h1.2.1 hr)
        · dsimp only
          rw [countUnlinked_append, numUnlabeledPods_append]
          have ha := h1.2.2
          have hb := h2.2.2
          have hc : numUnlabeledPods (po :: rest) =
              numUnlabeledPods [po] + numUnlabeledPods rest := by
            simpa using numUnlabeledPods_append [po] rest
          omega

theorem numRemovablePodsInit_nonneg (cfg : LoopConfig) (podList : List Pod) :
    0 ≤ numRemovablePodsInit cfg podList := by
  unfold numRemovablePodsInit
  dsimp only
  split_ifs with h
  · exact le_refl 0
  · omega

/-- C4 counterexample: with `maxRunnerPods = replicas = 0` and one pod that
already lacks the template-hash label (its status fetch fails, so it
survives the tick), the tick completes with one unlabeled pod — exceeding
`maxRunnerPods − replicas = 0`.  The claimed per-tick bound fails whenever
the unlabeled count already exceeds the cap at the head of the tick. -/
theorem unlabeled_exceeds_cap_cex :
    (maintainRunnerPods ⟨0, 0, 100, "", ""⟩ [] (fun _ => none) (fun _ => DeleteRes.ok)
      (fun _ => true) (fun _ => true) 5 0 [⟨"pod2", 0, []⟩]) =
      some ⟨[Event.setLastCheckTime 5, Event.getStatusFailed "pod2"],
        [⟨"pod2", 0, []⟩], 5, 0⟩ ∧
    ¬ numUnlabeledPods [(⟨"pod2", 0, []⟩ : Pod)] ≤
        (⟨0, 0, 100, "", ""⟩ : LoopConfig).maxRunnerPods -
          (⟨0, 0, 100, "", ""⟩ : LoopConfig).replicas := by
  exact ⟨by decide, by decide⟩

/-- C4 amended: in every completed tick of Phase C, `numRemovable` is
initialized to `max(0, maxRunnerPods − replicas − numUnlabeled)`; at most
that many pods are detached during the tick; and therefore — PROVIDED the
unlabeled count at the head of the tick does not already exceed
`maxRunnerPods − replicas` — the count of unlabeled pods after the tick does
not exceed `maxRunnerPods − replicas`. -/
theorem maintain_detach_cap (cfg : LoopConfig) (runnerList : List Runner)
    (statusOf : String → Option Status) (deleteRes : String → DeleteRes)
    (updateOk : String → Bool) (notifyOk : String → Bool)
    (now lastCheckTime : Int) (podList : List Pod) (res : TickResult)
    (h : maintainRunnerPods cfg runnerList statusOf deleteRes updateOk notifyOk
      now lastCheckTime podList = some res) :
    numRemovablePodsInit cfg podList =
      max 0 (cfg.maxRunnerPods - cfg.replicas - numUnlabeledPods podList) ∧
    countUnlinked res.events ≤ numRemovablePodsInit cfg podList ∧
    (numUnlabeledPods podList ≤ cfg.maxRunnerPods - cfg.replicas →
      numUnlabeledPods res.pods ≤ cfg.maxRunnerPods - cfg.replicas) := by
  unfold maintainRunnerPods at h
  cases hml : maintainLoop cfg runnerList statusOf deleteRes updateOk notifyOk
      now lastCheckTime podList (numRemovablePodsInit cfg podList) with
  | none => rw [hml] at h; cases h
  | some lres =>
    rw [hml] at h
    dsimp only at h
    cases h
    have hc := maintainLoop_counter cfg runnerList statusOf deleteRes updateOk notifyOk
      now lastCheckTime podList (numRemovablePodsInit cfg podList) lres hml
    have hinit : numRemovablePodsInit cfg podList =
        max 0 (cfg.maxRunnerPods - cfg.replicas - numUnlabeledPods podList) := by
      unfold numRemovablePodsInit
      dsimp only
      split_ifs with hneg <;> omega
    have hcu : countUnlinked (Event.setLastCheckTime now :: lres.events) =
        countUnlinked lres.events := by
      simp [countUnlinked]
    refine ⟨hinit, ?_, ?_⟩
    · dsimp only
      rw [hcu]
      have h0 := numRemovablePodsInit_nonneg cfg podList
      have := hc.1
      have := hc.2.1 h0
      omega
    · intro hcap
      dsimp only
      have h0 := numRemovablePodsInit_nonneg cfg podList
      have h1 := hc.1
      have h2 := hc.2.1 h0
      have h3 := hc.2.2
      have h4 : numRemovablePodsInit cfg podList =
          cfg.maxRunnerPods - cfg.replicas - numUnlabeledPods podList := by
        unfold numRemovablePodsInit
        dsimp only
        split_ifs with hneg <;> omega
      omega

/-- C4 witness: two-pod cap headroom of one, a single labeled pod whose
status fetch fails; the tick completes and the cap holds. -/
theorem maintain_detach_cap_witness :
    (maintainRunnerPods ⟨2, 1, 100, "", ""⟩ [] (fun _ => none) (fun _ => DeleteRes.ok)
        (fun _ => true) (fun _ => true) 5 0 [⟨"pod1", 0, [templateHashLabelKey]⟩] =
      some ⟨[Event.setLastCheckTime 5, Event.getStatusFailed "pod1"],
        [⟨"pod1", 0, [templateHashLabelKey]⟩], 5, 1⟩) ∧
    (numRemovablePodsInit ⟨2, 1, 100, "", ""⟩ [⟨"pod1", 0, [templateHashLabelKey]⟩] =
      max 0 ((2 : Int) - 1 - numUnlabeledPods [(⟨"pod1", 0, [templateHashLabelKey]⟩ : Pod)]) ∧
    countUnlinked [Event.setLastCheckTime 5, Event.getStatusFailed "pod1"] ≤
      numRemovablePodsInit ⟨2, 1, 100, "", ""⟩ [⟨"pod1", 0, [templateHashLabelKey]⟩] ∧
    (numUnlabeledPods [(⟨"pod1", 0, [templateHashLabelKey]⟩ : Pod)] ≤ (2 : Int) - 1 →
      numUnlabeledPods [(⟨"pod1", 0, [templateHashLabelKey]⟩ : Pod)] ≤ (2 : Int) - 1)) := by
  refine ⟨by decide, ?_⟩
  have h := maintain_detach_cap ⟨2, 1, 100, "", ""⟩ [] (fun _ => none)
    (fun _ => DeleteRes.ok) (fun _ => true) (fun _ => true) 5 0
    [⟨"pod1", 0, [templateHashLabelKey]⟩]
    ⟨[Event.setLastCheckTime 5, Event.getStatusFailed "pod1"],
      [⟨"pod1", 0, [templateHashLabelKey]⟩], 5, 1⟩ (by decide)
  exact h

theorem evalPodTail_no_notified (cfg : LoopConfig) (runnerList : List Runner)
    (deleteRes : String → DeleteRes) (updateOk : String → Bool)
    (now numRemovable : Int) (po : Pod) (state : RunnerPodState)
    (n ch : String) (b : Bool) :
    Event.notified n ch b ∉
      (evalPodTail cfg runnerList deleteRes updateOk now numRemovable po state).1 := by
  unfold evalPodTail
  split_ifs <;> simp

theorem evalPodDebugTail_no_notified (cfg : LoopConfig) (runnerList : List Runner)
    (deleteRes : String → DeleteRes) (updateOk : String → Bool)
    (now numRemovable : Int) (po : Pod) (status : Status) (res : PodResult)
    (h : evalPodDebugTail cfg runnerList deleteRes updateOk
      now numRemovable po status = some res)
    (n ch : String) (b : Bool) :
    Event.notified n ch b ∉ res.events := by
  unfold evalPodDebugTail at h
  cases hdt : status.deletionTime with
  | none => rw [hdt] at h; cases h
  | some dt =>
    rw [hdt] at h
    dsimp only at h
    by_cases h3 : dt < now
    · rw [if_pos h3] at h
      cases h
      simp
    · rw [if_neg h3] at h
      cases h
      exact evalPodTail_no_notified cfg runnerList deleteRes updateOk
        now numRemovable po status.state n ch b

theorem evalPod_notified_mem (cfg : LoopConfig) (runnerList : List Runner)
    (statusOf : String → Option Status) (deleteRes : String → DeleteRes)
    (updateOk : String → Bool) (notifyOk : String → Bool)
    (now lastCheckTime numRemovable : Int) (po : Pod) (res : PodResult)
    (h : evalPod cfg runnerList statusOf deleteRes updateOk notifyOk
      now lastCheckTime numRemovable po = some res)
    (n ch : String) (b : Bool) (hmem : Event.notified n ch b ∈ res.events) :
    po.name = n ∧ ∃ st fa, statusOf po.name = some st ∧
      st.state = RunnerPodState.debugging ∧ st.finishedAt = some fa ∧
      lastCheckTime < fa ∧ cfg.slackAgentServiceName ≠ "" := by
  unfold evalPod at h
  cases hst : statusOf po.name with
  | none =>
    rw [hst] at h
    cases h
    simp at hmem
  | some status =>
    rw [hst] at h
    dsimp only at h
    by_cases h1 : status.state = RunnerPodState.stale
    · rw [if_pos h1] at h
      cases h
      simp at hmem
    · rw [if_neg h1] at h
      by_cases h2 : status.state = RunnerPodState.debugging
      · rw [if_pos h2] at h
        cases hfa : status.finishedAt with
        | none => rw [hfa] at h; cases h
        | some fa =>
          rw [hfa] at h
          dsimp only at h
          by_cases hcond : lastCheckTime < fa ∧ cfg.slackAgentServiceName ≠ ""
          · rw [if_pos hcond] at h
            cases hex : status.extend with
            | none => rw [hex] at h; cases h
            | some e =>
              rw [hex] at h
              cases hdtl : evalPodDebugTail cfg runnerList deleteRes updateOk
                  now numRemovable po status with
              | none => rw [hdtl] at h; cases h
              | some r0 =>
                rw [hdtl, Option.map_some'] at h
                cases h
                rcases List.mem_cons.mp hmem with heq | hmem2
                · cases heq
                  exact ⟨rfl, status, fa, rfl, h2, hfa, hcond.1, hcond.2⟩
                · exact absurd hmem2 (evalPodDebugTail_no_notified cfg runnerList
                    deleteRes updateOk now numRemovable po status r0 hdtl n ch b)
          · rw [if_neg hcond] at h
            exact absurd hmem (evalPodDebugTail_no_notified cfg runnerList deleteRes
              updateOk now numRemovable po status res h n ch b)
      · rw [if_neg h2] at h
        cases h
        exact absurd hmem (evalPodTail_no_notified cfg runnerList deleteRes
          updateOk now numRemovable po status.state n ch b)

theorem maintainLoop_notified_mem (cfg : LoopConfig) (runnerList : List Runner)
    (statusOf : String → Option Status) (deleteRes : String → DeleteRes)
    (updateOk : String → Bool) (notifyOk : String → Bool) (now lastCheckTime : Int) :
    ∀ (podList : List Pod) (numRemovable : Int) (lres : LoopResult),
    maintainLoop cfg runnerList statusOf deleteRes updateOk notifyOk
      now lastCheckTime podList numRemovable = some lres →
    ∀ (n ch : String) (b : Bool), Event.notified n ch b ∈ lres.events →
    ∃ po ∈ podList, po.name = n ∧ ∃ st fa, statusOf n = some st ∧
      st.state = RunnerPodState.debugging ∧ st.finishedAt = some fa ∧
      lastCheckTime < fa ∧ cfg.slackAgentServiceName ≠ ""
  | [], r, lres, h => by
    cases h
    intro n ch b hmem
    simp at hmem
  | po :: rest, r, lres, h => by
    rw [maintainLoop] at h
    cases hev : evalPod cfg runnerList statusOf deleteRes updateOk notifyOk
        now lastCheckTime r po with
    | none => rw [hev] at h; cases h
    | some res =>
      rw [hev] at h
      dsimp only at h
      cases hrec : maintainLoop cfg runnerList statusOf deleteRes updateOk notifyOk
          now lastCheckTime rest res.numRemovable with
      | none => rw [hrec] at h; cases h
      | some lrec =>
        rw [hrec] at h
        dsimp only at h
        cases h
        intro n ch b hmem
        dsimp only at hmem
        rw [List.mem_append] at hmem
        rcases hmem with hmem | hmem
        · obtain ⟨hname, st, fa, hst, hdbg, hfa, hlt, hsvc⟩ :=
            evalPod_notified_mem cfg runnerList statusOf deleteRes updateOk notifyOk
              now lastCheckTime r po res hev n ch b hmem
          exact ⟨po, List.mem_cons_self po rest, hname, st, fa, hname ▸ hst, hdbg, hfa,
            hlt, hsvc⟩
        · obtain ⟨po2, hpo2, hrest⟩ :=
            maintainLoop_notified_mem cfg runnerList statusOf deleteRes updateOk notifyOk
              now lastCheckTime rest res.numRemovable lrec hrec n ch b hmem
          exact ⟨po2, List.mem_cons_of_mem po hpo2, hrest⟩

/-- C6 counterexample: the loop stores `lastCheckTime ← now` at the TOP of
Phase C (source line 310), before the pod loop: in the tick below the store
event precedes the per-pod event, so the claim that the stored field is
assigned only at the end of Phase C, after all per-pod rule evaluations,
fails. -/
theorem lastCheckTime_store_order_cex :
    (maintainRunnerPods ⟨0, 0, 100, "", ""⟩ [] (fun _ => none) (fun _ => DeleteRes.ok)
      (fun _ => true) (fun _ => true) 7 0 [⟨"pod3", 0, []⟩]) =
      some ⟨[Event.setLastCheckTime 7, Event.getStatusFailed "pod3"],
        [⟨"pod3", 0, []⟩], 7, 0⟩ ∧
    storeAfterPodEvents
      [Event.setLastCheckTime 7, Event.getStatusFailed "pod3"] = false := by
  exact ⟨by decide, by decide⟩

/-- C6 amended: in every completed tick the stored `lastCheckTime` is
assigned the tick's `now` at the START of Phase C — the trace begins with the
store event — and nevertheless every `finishedAt` comparison of the tick uses
the value stored by the previous tick: any notification in the trace is for a
pod whose debugging status has `finishedAt` strictly later than the PREVIOUS
tick's `lastCheckTime` (with a chat service configured), so the edge
detection behaves exactly as if the store happened at the end. -/
theorem lastCheckTime_stored_at_phase_head (cfg : LoopConfig)
    (runnerList : List Runner) (statusOf : String → Option Status)
    (deleteRes : String → DeleteRes) (updateOk : String → Bool)
    (notifyOk : String → Bool) (now lastCheckTime : Int) (podList : List Pod)
    (res : TickResult)
    (h : maintainRunnerPods cfg runnerList statusOf deleteRes updateOk notifyOk
      now lastCheckTime podList = some res) :
    res.events.head? = some (Event.setLastCheckTime now) ∧
    res.lastCheckTime = now ∧
    (∀ (n ch : String) (b : Bool), Event.notified n ch b ∈ res.events →
      ∃ po ∈ podList, po.name = n ∧ ∃ st fa, statusOf n = some st ∧
        st.state = RunnerPodState.debugging ∧ st.finishedAt = some fa ∧
        lastCheckTime < fa ∧ cfg.slackAgentServiceName ≠ "") := by
  unfold maintainRunnerPods at h
  cases hml : maintainLoop cfg runnerList statusOf deleteRes updateOk notifyOk
      now lastCheckTime podList (numRemovablePodsInit cfg podList) with
  | none => rw [hml] at h; cases h
  | some lres =>
    rw [hml] at h
    dsimp only at h
    cases h
    refine ⟨rfl, rfl, ?_⟩
    intro n ch b hmem
    dsimp only at hmem
    rw [List.mem_cons] at hmem
    rcases hmem with heq | hmem
    · cases heq
    · exact maintainLoop_notified_mem cfg runnerList statusOf deleteRes updateOk notifyOk
        now lastCheckTime podList (numRemovablePodsInit cfg podList) lres hml n ch b hmem

/-- C6 amended witness: one debugging pod notifying and surviving; the trace
head is the store event and the notification satisfies the previous-tick
comparison. -/
theorem lastCheckTime_stored_at_phase_head_witness :
    (maintainRunnerPods ⟨3, 1, 100, "svc", "#pool"⟩ []
        (fun _ => some ⟨RunnerPodState.debugging, some 10, some 50, some false, ""⟩)
        (fun _ => DeleteRes.ok) (fun _ => true) (fun _ => true) 6 5
        [⟨"pod1", 0, []⟩] =
      some ⟨[Event.setLastCheckTime 6, Event.notified "pod1" "#pool" true],
        [⟨"pod1", 0, []⟩], 6, 1⟩) ∧
    ([Event.setLastCheckTime 6, Event.notified "pod1" "#pool" true].head? =
      some (Event.setLastCheckTime 6) ∧
    (6 : Int) = 6 ∧
    (∀ (n ch : String) (b : Bool),
      Event.notified n ch b ∈ [Event.setLastCheckTime 6,
        Event.notified "pod1" "#pool" true] →
      ∃ po ∈ [(⟨"pod1", 0, []⟩ : Pod)], po.name = n ∧ ∃ st fa,
        (fun _ : String => some (⟨RunnerPodState.debugging, some 10, some 50, some false, ""⟩ : Status)) n =
          some st ∧
        st.state = RunnerPodState.debugging ∧ st.finishedAt = some fa ∧
        (5 : Int) < fa ∧ ("svc" : String) ≠ "")) := by
  refine ⟨by decide, ?_⟩
  have h := lastCheckTime_stored_at_phase_head ⟨3, 1, 100, "svc", "#pool"⟩ []
    (fun _ => some ⟨RunnerPodState.debugging, some 10, some 50, some false, ""⟩)
    (fun _ => DeleteRes.ok) (fun _ => true) (fun _ => true) 6 5
    [⟨"pod1", 0, []⟩]
    ⟨[Event.setLastCheckTime 6, Event.notified "pod1" "#pool" true],
      [⟨"pod1", 0, []⟩], 6, 1⟩ (by decide)
  exact h

theorem stopRemoveRunners_mem_of_ok (removeOk : Nat → Bool) (repo : String) :
    ∀ (runnerList : List Runner) (reg : Registry) (p : String × Runner),
    (stopRemoveRunners removeOk repo runnerList reg).2.2 = true →
    (p ∈ (stopRemoveRunners removeOk repo runnerList reg).2.1 ↔
      p ∈ reg ∧ ¬(p.1 = repo ∧ p.2.id ∈ runnerList.map (fun r => r.id)))
  | [], reg, p, hok => by
    simp [stopRemoveRunners]
  | r :: rest, reg, p, hok => by
    rw [stopRemoveRunners] at hok ⊢
    by_cases hr : removeOk r.id = true
    · rw [if_pos hr] at hok ⊢
      have ih := stopRemoveRunners_mem_of_ok removeOk repo rest
        (RemoveRunner reg repo r.id) p hok
      rw [ih]
      unfold RemoveRunner
      simp only [List.mem_filter, List.map_cons, List.mem_cons, decide_not,
        Bool.not_eq_eq_eq_not, Bool.not_true, decide_eq_false_iff_not]
      constructor
      · rintro ⟨⟨hp, hnot1⟩, hnot2⟩
        exact ⟨hp, by tauto⟩
      · rintro ⟨hp, hnot⟩
        exact ⟨⟨hp, by tauto⟩, by tauto⟩
    · rw [if_neg hr] at hok
      simp at hok

theorem mem_ListRunners_ids (reg : Registry) (repo key : String) (p : String × Runner)
    (hp : p ∈ reg) (hrepo : p.1 = repo) (hkey : p.2.labels.contains key = true) :
    p.2.id ∈ (ListRunners reg repo [key]).map (fun r => r.id) := by
  unfold ListRunners
  rw [List.map_map, List.mem_map]
  refine ⟨p, ?_, rfl⟩
  rw [List.mem_filter]
  refine ⟨hp, ?_⟩
  simp only [List.all_cons, List.all_nil, Bool.and_true, decide_eq_true_eq]
  exact ⟨hrepo, hkey⟩

theorem foldl_DeleteRunnerMetrics_runnerGauges (pool : String) :
    ∀ (names : List String) (st : ManagerState) (g : String × String),
    g ∈ ((names.foldl (fun s n => DeleteRunnerMetrics s pool n) st).runnerGauges) ↔
      g ∈ st.runnerGauges ∧ ¬(g.1 = pool ∧ g.2 ∈ names)
  | [], st, g => by simp
  | n :: rest, st, g => by
    rw [List.foldl_cons]
    rw [foldl_DeleteRunnerMetrics_runnerGauges pool rest (DeleteRunnerMetrics st pool n) g]
    unfold DeleteRunnerMetrics
    simp only [List.mem_filter, List.mem_cons, decide_not, Bool.not_eq_eq_eq_not,
      Bool.not_true, decide_eq_false_iff_not]
    constructor
    · rintro ⟨⟨hg, hnot1⟩, hnot2⟩
      exact ⟨hg, by tauto⟩
    · rintro ⟨hg, hnot⟩
      exact ⟨⟨hg, by tauto⟩, by tauto⟩

theorem foldl_DeleteRunnerMetrics_others (pool : String) :
    ∀ (names : List String) (st : ManagerState),
    ((names.foldl (fun s n => DeleteRunnerMetrics s pool n) st).poolGauges =
      st.poolGauges) ∧
    ((names.foldl (fun s n => DeleteRunnerMetrics s pool n) st).loops = st.loops)
  | [], st => ⟨rfl, rfl⟩
  | n :: rest, st => by
    rw [List.foldl_cons]
    exact foldl_DeleteRunnerMetrics_others pool rest (DeleteRunnerMetrics st pool n)

theorem lookupLoop_filter_ne (loops : List (String × LoopState)) (key : String) :
    lookupLoop (loops.filter (fun p => p.1 ≠ key)) key = none := by
  unfold lookupLoop
  rw [List.find?_eq_none.mpr]
  · rfl
  · intro x hx
    rw [List.mem_filter] at hx
    simpa using hx.2

/-- C3: if `Stop(P)` returns success then afterwards (a) the manager's loop
map has no entry for P's identity, (b) no CI-provider runner tagged with P's
identity remains registered for P's repository, and (c) the per-pool gauge
and every per-runner gauge recorded for P are gone.  The two gauge
hypotheses are the state invariants maintained by the loop: per-runner gauges
of a pool always name runners of the pool's live loop's `prevRunnerNames`,
and a pool gauge exists only while the loop is in the map. -/
theorem Stop_postconditions (removeOk : Nat → Bool) (st : ManagerState)
    (reg : Registry) (rp : RunnerPool)
    (hg1 : ∀ g ∈ st.runnerGauges, g.1 = namespacedName rp.ns rp.name →
      ∃ loop, lookupLoop st.loops (namespacedName rp.ns rp.name) = some loop ∧
        g.2 ∈ loop.prevRunnerNames)
    (hg2 : namespacedName rp.ns rp.name ∈ st.poolGauges →
      (lookupLoop st.loops (namespacedName rp.ns rp.name)).isSome = true)
    (hok : (Stop removeOk st reg rp).2.2 = true) :
    lookupLoop (Stop removeOk st reg rp).1.loops (namespacedName rp.ns rp.name) = none ∧
    (∀ p ∈ (Stop removeOk st reg rp).2.1,
      ¬(p.1 = rp.repositoryName ∧ p.2.labels.contains (namespacedName rp.ns rp.name) = true)) ∧
    namespacedName rp.ns rp.name ∉ (Stop removeOk st reg rp).1.poolGauges ∧
    (∀ g ∈ (Stop removeOk st reg rp).1.runnerGauges,
      g.1 ≠ namespacedName rp.ns rp.name) := by
  have hreg : ∀ p ∈ (Stop removeOk st reg rp).2.1,
      ¬(p.1 = rp.repositoryName ∧
        p.2.labels.contains (namespacedName rp.ns rp.name) = true) := by
    intro p hp
    rintro ⟨hrepo, hkey⟩
    have hok2 : (stopRemoveRunners removeOk rp.repositoryName
        (ListRunners reg rp.repositoryName [namespacedName rp.ns rp.name]) reg).2.2 =
        true := hok
    have hmem := (stopRemoveRunners_mem_of_ok removeOk rp.repositoryName
      (ListRunners reg rp.repositoryName [namespacedName rp.ns rp.name]) reg p hok2).mp hp
    exact hmem.2 ⟨hrepo, mem_ListRunners_ids reg rp.repositoryName
      (namespacedName rp.ns rp.name) p hmem.1 hrepo hkey⟩
  cases hl : lookupLoop st.loops (namespacedName rp.ns rp.name) with
  | some loop =>
    have hst1 : (Stop removeOk st reg rp).1 =
        { managerLoopStop st (namespacedName rp.ns rp.name) loop with
          loops := (managerLoopStop st (namespacedName rp.ns rp.name) loop).loops.filter
            (fun p => p.1 ≠ namespacedName rp.ns rp.name) } := by
      unfold Stop
      dsimp only
      rw [hl]
    refine ⟨?_, hreg, ?_, ?_⟩
    · rw [hst1]
      exact lookupLoop_filter_ne _ _
    · rw [hst1]
      unfold managerLoopStop DeleteRunnerPoolMetrics
      intro hmem
      dsimp only at hmem
      rw [List.mem_filter] at hmem
      simpa using hmem.2
    · rw [hst1]
      intro g hg
      unfold managerLoopStop DeleteRunnerPoolMetrics at hg
      dsimp only at hg
      rw [foldl_DeleteRunnerMetrics_runnerGauges] at hg
      intro hkey
      obtain ⟨loop2, hl2, hmem2⟩ := hg1 g hg.1 hkey
      rw [hl] at hl2
      cases hl2
      exact hg.2 ⟨hkey, hmem2⟩
  | none =>
    have hst1 : (Stop removeOk st reg rp).1 = st := by
      unfold Stop
      dsimp only
      rw [hl]
    refine ⟨?_, hreg, ?_, ?_⟩
    · rw [hst1]
      exact hl
    · rw [hst1]
      intro hmem
      have := hg2 hmem
      rw [hl] at this
      cases this
    · rw [hst1]
      intro g hg hkey
      obtain ⟨loop2, hl2, _⟩ := hg1 g hg hkey
      rw [hl] at hl2
      cases hl2

/-- C3 witness: one live loop for pool identity ns1/rp1 with its gauges and
one tagged registered runner; all removals succeed. -/
theorem Stop_postconditions_witness :
    (∀ g ∈ ([("ns1/rp1", "podA")] : List (String × String)),
      g.1 = namespacedName "ns1" "rp1" →
      ∃ loop, lookupLoop [("ns1/rp1", LoopState.mk ["podA"])]
          (namespacedName "ns1" "rp1") = some loop ∧ g.2 ∈ loop.prevRunnerNames) ∧
    ((namespacedName "ns1" "rp1" ∈ (["ns1/rp1"] : List String) →
      (lookupLoop [("ns1/rp1", LoopState.mk ["podA"])]
        (namespacedName "ns1" "rp1")).isSome = true)) ∧
    ((Stop (fun _ => true)
        ⟨[("ns1/rp1", LoopState.mk ["podA"])], ["ns1/rp1"], [("ns1/rp1", "podA")]⟩
        [("repo1", ⟨7, "podA", false, false, ["ns1/rp1"]⟩)]
        ⟨"ns1", "rp1", "repo1"⟩).2.2 = true) ∧
    (lookupLoop (Stop (fun _ => true)
        ⟨[("ns1/rp1", LoopState.mk ["podA"])], ["ns1/rp1"], [("ns1/rp1", "podA")]⟩
        [("repo1", ⟨7, "podA", false, false, ["ns1/rp1"]⟩)]
        ⟨"ns1", "rp1", "repo1"⟩).1.loops (namespacedName "ns1" "rp1") = none ∧
    (∀ p ∈ (Stop (fun _ => true)
        ⟨[("ns1/rp1", LoopState.mk ["podA"])], ["ns1/rp1"], [("ns1/rp1", "podA")]⟩
        [("repo1", ⟨7, "podA", false, false, ["ns1/rp1"]⟩)]
        ⟨"ns1", "rp1", "repo1"⟩).2.1,
      ¬(p.1 = "repo1" ∧ p.2.labels.contains (namespacedName "ns1" "rp1") = true)) ∧
    namespacedName "ns1" "rp1" ∉ (Stop (fun _ => true)
        ⟨[("ns1/rp1", LoopState.mk ["podA"])], ["ns1/rp1"], [("ns1/rp1", "podA")]⟩
        [("repo1", ⟨7, "podA", false, false, ["ns1/rp1"]⟩)]
        ⟨"ns1", "rp1", "repo1"⟩).1.poolGauges ∧
    (∀ g ∈ (Stop (fun _ => true)
        ⟨[("ns1/rp1", LoopState.mk ["podA"])], ["ns1/rp1"], [("ns1/rp1", "podA")]⟩
        [("repo1", ⟨7, "podA", false, false, ["ns1/rp1"]⟩)]
        ⟨"ns1", "rp1", "repo1"⟩).1.runnerGauges,
      g.1 ≠ namespacedName "ns1" "rp1")) := by
  refine ⟨?_, ?_, ?_, ?_⟩
  · intro g hg _
    refine ⟨LoopState.mk ["podA"], ?_, ?_⟩
    · rfl
    · have hgeq : g = ("ns1/rp1", "podA") := by simpa using hg
      rw [hgeq]
      decide
  · intro _
    rfl
  · decide
  · exact Stop_postconditions (fun _ => true)
      ⟨[("ns1/rp1", LoopState.mk ["podA"])], ["ns1/rp1"], [("ns1/rp1", "podA")]⟩
      [("repo1", ⟨7, "podA", false, false, ["ns1/rp1"]⟩)]
      ⟨"ns1", "rp1", "repo1"⟩
      (by
        intro g hg _
        refine ⟨LoopState.mk ["podA"], rfl, ?_⟩
        have hgeq : g = ("ns1/rp1", "podA") := by simpa using hg
        rw [hgeq]
        decide)
      (fun _ => rfl)
      (by decide)

end Meows
